import Mathlib

/-!
Verification development for the `website-search-indexer` repository
(`src/indexer_script.py` and `src/indexer_script_prefixed.py`).

The Python source is shallowly embedded below.  Strings are handled through
their character lists so that every definition is executable and
kernel-reducible.  External collaborators (the HTTP transport via `requests`
and the stdlib helpers `urllib.parse` / `os.path.splitext` / `html.parser`)
are modelled only to the extent the scripts use them, and each such model
carries a doc comment saying what it models.
-/

namespace WebIndexer

/-- Model of Python `str.lower` restricted to ASCII case folding, which is all
the scripts rely on (tag names, attribute names, word tokens). -/
def lowerStr (s : String) : String :=
  String.mk (s.toList.map Char.toLower)

/-- Character-list test that `s` starts with `pre`; model of Python
`str.startswith`. -/
def strStartsWith (s pre : String) : Bool :=
  pre.toList.isPrefixOf s.toList

/-- Character-list test that `s` ends with `suf`; model of Python
`str.endswith`. -/
def strEndsWith (s suf : String) : Bool :=
  suf.toList.isSuffixOf s.toList

/-- Model of `href.split('#')[0]` (indexer_script.py line 141): the part of the
string before the first `#`, or the whole string when no `#` occurs. -/
def stripFrag (href : String) : String :=
  String.mk (href.toList.takeWhile (fun c => c ≠ '#'))

/-- Characters after the first `://` of a URL, or `none` when the URL has no
`://`.  Helper for the model of `urllib.parse.urlparse` on the absolute
http(s) URLs these scripts handle. -/
def dropSchemeAux : List Char → Option (List Char)
  | [] => none
  | c :: rest =>
    if c = ':' then
      match rest with
      | '/' :: '/' :: r => some r
      | _ => dropSchemeAux rest
    else dropSchemeAux rest

/-- True of the characters that end the authority (netloc) component. -/
def isNetlocEnd (c : Char) : Bool :=
  c = '/' || c = '?' || c = '#'

/-- Model of `urlparse(url).netloc` for absolute http(s) URLs: the characters
between `://` and the first `/`, `?` or `#`.  A string without `://` has an
empty netloc. -/
def urlNetloc (url : String) : String :=
  match dropSchemeAux url.toList with
  | none => ""
  | some r => String.mk (r.takeWhile (fun c => !(isNetlocEnd c)))

/-- Model of `urlparse(url).path` for absolute http(s) URLs: the characters
after the authority and before any `?` or `#`.  A string without `://` is
taken as a bare path (query/fragment stripped), matching `urlparse` on
scheme-less path strings. -/
def urlPath (url : String) : String :=
  match dropSchemeAux url.toList with
  | none => String.mk (url.toList.takeWhile (fun c => c ≠ '?' ∧ c ≠ '#'))
  | some r =>
    String.mk ((r.dropWhile (fun c => !(isNetlocEnd c))).takeWhile
      (fun c => c ≠ '?' ∧ c ≠ '#'))

/-- Extension component of `os.path.splitext` (posix rules): the suffix of the
basename from its last dot on, unless every character of the basename before
that dot is itself a dot (so `.hidden` has no extension). -/
def splitextExt (p : String) : String :=
  let base := (p.toList.reverse.takeWhile (fun c => c ≠ '/')).reverse
  let rev := base.reverse
  let after := rev.takeWhile (fun c => c ≠ '.')
  if after.length = rev.length then ""
  else
    let stem := (rev.drop (after.length + 1)).reverse
    if stem.all (fun c => c = '.') then "" else String.mk ('.' :: after.reverse)

/-- Model of `os.path.splitext`: root and extension. -/
def splitext (p : String) : String × String :=
  let ext := splitextExt p
  (String.mk (p.toList.take (p.toList.length - ext.toList.length)), ext)

/-- Translation of `is_likely_html` (indexer_script.py lines 33–41; the
prefixed variant lines 42–47 is the same predicate): the path's extension is
empty, `.html` or `.htm`, or the path ends with a slash. -/
def is_likely_html (url : String) : Bool :=
  let path := urlPath url
  let ext := (splitext path).2
  if ext ∈ (["", ".html", ".htm"] : List String) then true
  else if strEndsWith path "/" then true
  else false

/-- Scheme plus authority of a URL (everything up to the end of the netloc);
helper for the `urljoin` model. -/
def schemeAuthChars : List Char → List Char
  | [] => []
  | c :: rest =>
    if c = ':' then
      match rest with
      | '/' :: '/' :: r =>
        c :: '/' :: '/' :: r.takeWhile (fun ch => !(isNetlocEnd ch))
      | _ => c :: schemeAuthChars rest
    else c :: schemeAuthChars rest

/-- Scheme plus authority of a URL as a string. -/
def schemeAuth (base : String) : String :=
  String.mk (schemeAuthChars base.toList)

/-- Everything before the last `/` of a path, or the whole path when it has no
slash; model of Python `path.rsplit('/', 1)[0]`. -/
def rsplitHead (p : String) : String :=
  if p.toList.contains '/' then
    String.mk (((p.toList.reverse.dropWhile (fun c => c ≠ '/')).drop 1).reverse)
  else p

/-- Model of `urllib.parse.urljoin(base, href)` for the href shapes these
scripts exercise: an absolute URL (containing `://`) is returned unchanged, an
empty href yields the base, a root-relative href is attached to the base's
scheme and authority, and any other relative href (without dot segments, which
this model does not normalize) replaces the final segment of the base's
path. -/
def urljoinModel (base href : String) : String :=
  if (dropSchemeAux href.toList).isSome then href
  else if href = "" then base
  else if strStartsWith href "/" then schemeAuth base ++ href
  else schemeAuth base ++ rsplitHead (urlPath base) ++ "/" ++ href

/-- True of word characters in the sense of `re.split(r'\W+')` on ASCII text:
letters, digits and underscore. -/
def isWordChar (c : Char) : Bool :=
  c.isAlphanum || c = '_'

/-- Translation of `tokenize` (indexer_script.py lines 84–85):
`[tok.lower() for tok in re.split(r'\W+', text) if tok]`.  Splitting at every
single non-word character and then discarding empty pieces yields the same
list as splitting on maximal non-word runs and discarding empty pieces. -/
def tokenize (text : String) : List String :=
  (((text.toList.splitOnP (fun c => !(isWordChar c))).map
      (fun cs => String.mk cs)).filter (fun s => s ≠ "")).map lowerStr

/-- Event stream consumed by the two `HTMLParser` subclasses: start tags, end
tags and text data. -/
inductive HtmlEvent where
  | start (tag : String)
  | close (tag : String)
  | data (s : String)
deriving DecidableEq

/-- Model of the event stream Python's `html.parser.HTMLParser` produces on
simple well-formed markup without attributes or comments: `<name>` becomes a
start event, `</name>` a close event, and any maximal run of other characters
a data event.  The fuel argument bounds recursion; `lexHtml cs.length cs`
suffices since every event consumes at least one character. -/
def lexHtml : Nat → List Char → List HtmlEvent
  | 0, _ => []
  | _, [] => []
  | fuel + 1, '<' :: rest =>
    let tagChars := rest.takeWhile (fun c => c ≠ '>')
    let rest2 := (rest.dropWhile (fun c => c ≠ '>')).drop 1
    (match tagChars with
     | '/' :: name => HtmlEvent.close (String.mk name)
     | name => HtmlEvent.start (String.mk name)) :: lexHtml fuel rest2
  | fuel + 1, c :: rest =>
    let dataChars := c :: rest.takeWhile (fun ch => ch ≠ '<')
    let rest2 := rest.dropWhile (fun ch => ch ≠ '<')
    HtmlEvent.data (String.mk dataChars) :: lexHtml fuel rest2

/-- State of `TextExtractor` (indexer_script.py lines 44–70): the `in_body`
and `skip` flags and the accumulated text chunks. -/
structure TextExtractor where
  in_body : Bool
  skip : Bool
  chunks : List String
deriving DecidableEq

/-- Freshly constructed `TextExtractor`. -/
def TextExtractor.init : TextExtractor :=
  ⟨false, false, []⟩

/-- Translation of `TextExtractor.handle_starttag`. -/
def TextExtractor.handle_starttag (te : TextExtractor) (tag : String) : TextExtractor :=
  let t := lowerStr tag
  if t = "body" then { te with in_body := true }
  else if te.in_body ∧ t ∈ (["script", "style", "head"] : List String) then
    { te with skip := true }
  else te

/-- Translation of `TextExtractor.handle_endtag`. -/
def TextExtractor.handle_endtag (te : TextExtractor) (tag : String) : TextExtractor :=
  let t := lowerStr tag
  if t = "body" then { te with in_body := false }
  else if t ∈ (["script", "style", "head"] : List String) then
    { te with skip := false }
  else te

/-- Translation of `TextExtractor.handle_data`: text is kept exactly when the
parser is inside `body` and not suppressed. -/
def TextExtractor.handle_data (te : TextExtractor) (s : String) : TextExtractor :=
  if te.in_body && !te.skip then { te with chunks := te.chunks ++ [s] } else te

/-- Dispatch one event to the matching handler. -/
def TextExtractor.handleEvent (te : TextExtractor) : HtmlEvent → TextExtractor
  | HtmlEvent.start t => te.handle_starttag t
  | HtmlEvent.close t => te.handle_endtag t
  | HtmlEvent.data s => te.handle_data s

/-- Feed a whole event stream, in order. -/
def TextExtractor.feed (te : TextExtractor) (evs : List HtmlEvent) : TextExtractor :=
  evs.foldl TextExtractor.handleEvent te

/-- Model of `' '.join(chunks)`. -/
def joinSep (sep : String) : List String → String
  | [] => ""
  | [s] => s
  | s :: rest => s ++ sep ++ joinSep sep rest

/-- Translation of `TextExtractor.text`: chunks joined with single spaces. -/
def TextExtractor.textOf (te : TextExtractor) : String :=
  joinSep " " te.chunks

/-- Visible body text of an HTML string: lex it and run the extractor, as
`te.feed(html); te.text()` does. -/
def extractText (html : String) : String :=
  (TextExtractor.init.feed (lexHtml html.toList.length html.toList)).textOf

/-- Value test `v` of `if k.lower() == 'href' and v:` — a `None` attribute
value and the empty string are falsy, anything else passes through. -/
def hrefVal : Option String → Option String
  | none => none
  | some s => if s = "" then none else some s

/-- Translation of the attribute loop of `LinkExtractor.handle_starttag`
(indexer_script.py lines 79–81): every attribute whose lowercased name is
`href` and whose value is truthy contributes its value, in order. -/
def linksOfAttrs : List (String × Option String) → List String
  | [] => []
  | (k, v) :: rest =>
    (if lowerStr k = "href" then (hrefVal v).toList else []) ++ linksOfAttrs rest

/-- Translation of `LinkExtractor.handle_starttag` (lines 77–81): only anchor
tags contribute, matched case-insensitively. -/
def linksOfStartTag (tag : String) (attrs : List (String × Option String)) : List String :=
  if lowerStr tag = "a" then linksOfAttrs attrs else []

/-- Postings of one term: an association list from URL to its list of
positions, in insertion order, modelling the inner Python dict. -/
abbrev TermPostings := List (String × List Nat)

/-- The inverted index: an association list from term to its postings,
modelling the outer Python dict. -/
abbrev InvIndex := List (String × TermPostings)

/-- Look up the positions list of a URL inside one term's postings;
absent keys give the empty list. -/
def findPositions : TermPostings → String → List Nat
  | [], _ => []
  | (u, l) :: rest, s => if u = s then l else findPositions rest s

/-- Look up a term's postings in the index; absent terms give the empty
postings map. -/
def findPostings : InvIndex → String → TermPostings
  | [], _ => []
  | (t, ps) :: rest, s => if t = s then ps else findPostings rest s

/-- Positions recorded for term `t` at URL `u`. -/
def lookupPost (idx : InvIndex) (t u : String) : List Nat :=
  findPositions (findPostings idx t) u

/-- Translation of `postings.setdefault(url, []).append(pos)`: append `p` to
the entry of `u`, creating the entry at the back when absent (dict insertion
order). -/
def postingsAppend : TermPostings → String → Nat → TermPostings
  | [], u, p => [(u, [p])]
  | (w, l) :: rest, u, p =>
    if w = u then (w, l ++ [p]) :: rest else (w, l) :: postingsAppend rest u p

/-- Translation of one iteration of the indexing loop (indexer_script.py
lines 133–135): `index.setdefault(term, {})` then the postings append. -/
def indexAdd : InvIndex → String → String → Nat → InvIndex
  | [], t, u, p => [(t, [(u, [p])])]
  | (s, ps) :: rest, t, u, p =>
    if s = t then (s, postingsAppend ps u p) :: rest
    else (s, ps) :: indexAdd rest t u p

/-- Translation of the whole indexing pass
`for pos, term in enumerate(tokens): ...` for one document. -/
def indexTokens (idx : InvIndex) (url : String) (tokens : List String) : InvIndex :=
  tokens.enum.foldl (fun a pt => indexAdd a pt.2 url pt.1) idx

/-- Zero-based positions of `t` in the token list, in order: the first
components of the enumerated pairs whose token equals `t`. -/
def positionsOf (tokens : List String) (t : String) : List Nat :=
  (tokens.enum.filter (fun p => p.2 == t)).map Prod.fst

/-- Flush interval `FLUSH_EVERY = 50`. -/
def FLUSH_EVERY : Nat := 50

/-- Outcome the external world gives for fetching one URL, covering the three
branches of the crawl loop: `requests.get`/`raise_for_status` failing, a
response whose Content-Type is not HTML, or an HTML page.  For a page, the
first component is the result of `te.feed` plus `tokenize` (the token list, or
an exception) and the second the result of `le.feed` (the raw href list, or an
exception); these are the two points inside the per-document `try` block where
the Python code can raise. -/
inductive FetchOutcome where
  | fetchError
  | notHtml
  | page (textRes : Except Unit (List String)) (linkRes : Except Unit (List String))

/-- Mutable state of `main` (indexer_script.py lines 94–97): the FIFO frontier
`to_crawl`, the `seen` set (modelled as a list queried by membership), the
inverted index, the page counter, and a counter of flushes performed so far by
the loop body. -/
structure CrawlState where
  to_crawl : List String
  seen : List String
  index : InvIndex
  page_count : Nat
  flushes : Nat

/-- Initial state of `main`: the frontier holds the seed, everything else is
empty (lines 94–97). -/
def initState (seed : String) : CrawlState :=
  ⟨[seed], [], [], 0, 0⟩

/-- Translation of the link-enqueue loop (indexer_script.py lines 140–146):
strip the fragment, resolve against the current page, and append when the
netloc matches the domain, the link is unseen and looks like HTML.  `seen`
does not change during the loop, and nothing reads `to_crawl` inside it, so
the appended suffix is computed independently. -/
def enqueueLinks (domain : String) (seen : List String) (base : String) :
    List String → List String
  | [] => []
  | href :: rest =>
    let abs_link := urljoinModel base (stripFrag href)
    (if urlNetloc abs_link = domain ∧ abs_link ∉ seen ∧ is_likely_html abs_link = true
     then [abs_link] else []) ++ enqueueLinks domain seen base rest

/-- Translation of the per-document `try` block (lines 126–155), starting from
the state in which the URL has been popped and marked seen.  A text-extraction
error leaves the state as is; otherwise the index gains the document's tokens;
a subsequent link-extraction error stops there (the index update is kept, as
in the source, where the index loop precedes `le.feed`); otherwise eligible
links are appended and the page counter (with its periodic flush) advances. -/
def processPage (domain url : String)
    (tr lr : Except Unit (List String)) (st : CrawlState) : CrawlState :=
  match tr with
  | Except.error _ => st
  | Except.ok tokens =>
    let st1 := { st with index := indexTokens st.index url tokens }
    match lr with
    | Except.error _ => st1
    | Except.ok hrefs =>
      let st2 := { st1 with to_crawl := st1.to_crawl ++ enqueueLinks domain st1.seen url hrefs }
      let pc := st2.page_count + 1
      { st2 with page_count := pc,
                 flushes := if pc % FLUSH_EVERY = 0 then st2.flushes + 1 else st2.flushes }

/-- Translation of the fetch section (lines 106–123) for an already popped and
seen-marked URL: skip when not HTML-like, skip on fetch error or wrong
content type, otherwise process the page. -/
def processFetched (world : String → FetchOutcome) (domain url : String)
    (st : CrawlState) : CrawlState :=
  if is_likely_html url = false then st
  else
    match world url with
    | FetchOutcome.fetchError => st
    | FetchOutcome.notHtml => st
    | FetchOutcome.page tr lr => processPage domain url tr lr st

/-- One iteration of the crawl loop (lines 99–155): pop the front URL; if it
is already seen, nothing else happens; otherwise it is marked seen and
handled. -/
def step (world : String → FetchOutcome) (domain : String) (st : CrawlState) : CrawlState :=
  match st.to_crawl with
  | [] => st
  | url :: rest =>
    if url ∈ st.seen then { st with to_crawl := rest }
    else processFetched world domain url { st with to_crawl := rest, seen := url :: st.seen }

/-- URLs for which `requests.get` is issued while running `n` iterations of
the loop from `st`: a fetch happens exactly when the popped URL is unseen and
HTML-like (lines 101–111). -/
def runFetches (world : String → FetchOutcome) (domain : String) :
    Nat → CrawlState → List String
  | 0, _ => []
  | n + 1, st =>
    match st.to_crawl with
    | [] => []
    | url :: _ =>
      (if url ∉ st.seen ∧ is_likely_html url = true then [url] else []) ++
        runFetches world domain n (step world domain st)

/-- PREFIX_DIR derivation of the prefix-scoped variant
(indexer_script_prefixed.py lines 32–36): the seed path itself when it ends in
a slash, otherwise everything before its last slash plus a trailing slash. -/
def PREFIX_DIR_of (seedUrl : String) : String :=
  let p := urlPath seedUrl
  if strEndsWith p "/" then p else rsplitHead p ++ "/"

/-- Enqueue condition of the prefix-scoped variant (lines 152–156): domain
match, unseen, path inside the prefix directory, and HTML-like. -/
def enqCondP (domain pd : String) (seen : List String) (abs_link : String) : Bool :=
  (urlNetloc abs_link == domain) && !(seen.contains abs_link) &&
    strStartsWith (urlPath abs_link) pd && is_likely_html abs_link

/-- World in which every page parses with one token and link extraction
raises. -/
def worldLinkErr : String → FetchOutcome :=
  fun _ => FetchOutcome.page (Except.ok ["a"]) (Except.error ())

/-- World in which every page parses with no tokens and yields the same link
twice. -/
def worldDupLinks : String → FetchOutcome :=
  fun _ => FetchOutcome.page (Except.ok [])
    (Except.ok ["https://d/x", "https://d/x"])

/-- World in which every fetch fails. -/
def worldFetchErr : String → FetchOutcome :=
  fun _ => FetchOutcome.fetchError

theorem findPositions_postingsAppend (ps : TermPostings) (u' u : String) (p : Nat) :
    findPositions (postingsAppend ps u' p) u =
      if u' = u then findPositions ps u ++ [p] else findPositions ps u := by
  induction ps with
  | nil =>
    by_cases h : u' = u <;> simp [postingsAppend, findPositions, h]
  | cons hd tl ih =>
    obtain ⟨w, l⟩ := hd
    by_cases hw : w = u'
    · subst hw
      by_cases hu : w = u <;> simp [postingsAppend, findPositions, hu]
    · by_cases hu : w = u
      · subst hu
        have hne : u' ≠ w := fun h => hw h.symm
        simp [postingsAppend, hw, findPositions, hne]
      · simp [postingsAppend, hw, findPositions, hu, ih]

theorem lookupPost_indexAdd (idx : InvIndex) (t' u' t u : String) (p : Nat) :
    lookupPost (indexAdd idx t' u' p) t u =
      if t' = t ∧ u' = u then lookupPost idx t u ++ [p] else lookupPost idx t u := by
  induction idx with
  | nil =>
    by_cases ht : t' = t
    · subst ht
      by_cases hu : u' = u <;>
        simp [indexAdd, lookupPost, findPostings, findPositions, hu]
    · simp [indexAdd, lookupPost, findPostings, findPositions, ht]
  | cons hd rest ih =>
    obtain ⟨s, ps⟩ := hd
    by_cases hs : s = t'
    · subst hs
      by_cases ht : s = t
      · subst ht
        by_cases hu : u' = u <;>
          simp [indexAdd, lookupPost, findPostings, findPositions_postingsAppend, hu]
      · simp [indexAdd, lookupPost, findPostings, ht]
    · by_cases ht : s = t
      · subst ht
        have hne : t' ≠ s := fun h => hs h.symm
        simp [indexAdd, hs, lookupPost, findPostings, hne]
      · simpa [indexAdd, hs, lookupPost, findPostings, ht] using ih

theorem lookupPost_foldAdd (url t u : String) :
    ∀ (pairs : List (Nat × String)) (idx : InvIndex),
      lookupPost (pairs.foldl (fun a pt => indexAdd a pt.2 url pt.1) idx) t u =
        lookupPost idx t u ++
          (if url = u then (pairs.filter (fun q => q.2 == t)).map Prod.fst else [])
  | [], idx => by simp
  | (p, w) :: rest, idx => by
    simp only [List.foldl_cons]
    rw [lookupPost_foldAdd url t u rest (indexAdd idx w url p), lookupPost_indexAdd]
    by_cases hw : w = t <;> by_cases hu : url = u <;>
      simp [hw, hu, List.filter_cons]

theorem lookupPost_indexTokens (idx : InvIndex) (U : String) (T : List String)
    (t u : String) :
    lookupPost (indexTokens idx U T) t u =
      lookupPost idx t u ++ (if U = u then positionsOf T t else []) := by
  unfold indexTokens positionsOf
  rw [lookupPost_foldAdd]

theorem positionsOf_pairwise (T : List String) (t : String) :
    (positionsOf T t).Pairwise (· < ·) := by
  unfold positionsOf
  have hsub : ((T.enum.filter (fun q => q.2 == t)).map Prod.fst).Sublist
      (T.enum.map Prod.fst) :=
    (List.filter_sublist _).map Prod.fst
  rw [List.enum_map_fst] at hsub
  exact List.Pairwise.sublist hsub (List.pairwise_lt_range T.length)

theorem mem_positionsOf (T : List String) (t : String) (i : Nat) :
    i ∈ positionsOf T t ↔ T[i]? = some t := by
  unfold positionsOf
  simp only [List.mem_map, List.mem_filter]
  constructor
  · rintro ⟨⟨j, w⟩, ⟨hmem, hw⟩, rfl⟩
    have hw2 : w = t := by simpa using hw
    subst hw2
    simpa using List.mem_enum_iff_getElem?.mp hmem
  · intro h
    exact ⟨(i, t), ⟨List.mem_enum_iff_getElem?.mpr (by simpa using h), by simp⟩, rfl⟩

/-- C1: indexing a document with token list `T` at a URL `U` that has no
postings yet gives, for each term `t`, exactly the list of zero-based
positions of `t` in `T`, strictly increasing; in particular for
`T = ["a", "b", "a"]` the posting for `a` is `[0, 2]` and for `b` is `[1]`. -/
theorem C1_fresh_url_posting (idx : InvIndex) (U t : String) (T : List String)
    (hfresh : ∀ s, lookupPost idx s U = []) :
    lookupPost (indexTokens idx U T) t U = positionsOf T t
    ∧ (∀ i, i ∈ lookupPost (indexTokens idx U T) t U ↔ T[i]? = some t)
    ∧ (lookupPost (indexTokens idx U T) t U).Pairwise (· < ·)
    ∧ lookupPost (indexTokens [] "u" ["a", "b", "a"]) "a" "u" = [0, 2]
    ∧ lookupPost (indexTokens [] "u" ["a", "b", "a"]) "b" "u" = [1] := by
  have key : lookupPost (indexTokens idx U T) t U = positionsOf T t := by
    rw [lookupPost_indexTokens, hfresh t, if_pos rfl, List.nil_append]
  refine ⟨key, ?_, ?_, by decide, by decide⟩
  · intro i
    rw [key]
    exact mem_positionsOf T t i
  · rw [key]
    exact positionsOf_pairwise T t

/-- Witness for C1 at `idx = []`, `U = "u"`, `T = ["a", "b", "a"]`,
`t = "a"`. -/
theorem C1_fresh_url_posting_witness :
    lookupPost (indexTokens [] "u" ["a", "b", "a"]) "a" "u"
      = positionsOf ["a", "b", "a"] "a" :=
  (C1_fresh_url_posting [] "u" "a" ["a", "b", "a"] (fun _ => rfl)).1

/-- C6 counterexample: re-indexing a URL does not replace its postings.
After indexing `["a"]` at `"u"` and re-indexing `["a"]` there, the posting is
`[0, 0]` (appended), and after re-indexing `["b"]` the stale posting `[0]`
for `"a"` survives even though the new document contains no `"a"`, so the
posting does not depend only on the new document's token sequence. -/
theorem C6_counterexample :
    lookupPost (indexTokens (indexTokens [] "u" ["a"]) "u" ["a"]) "a" "u" = [0, 0]
    ∧ lookupPost (indexTokens (indexTokens [] "u" ["a"]) "u" ["b"]) "a" "u" = [0] := by
  decide

/-- C6 amended: indexing a document at a URL appends the new document's
positions to whatever postings the URL already has, for every term, rather
than replacing them. -/
theorem C6_reindex_appends (idx : InvIndex) (U t : String) (T : List String) :
    lookupPost (indexTokens idx U T) t U = lookupPost idx t U ++ positionsOf T t := by
  rw [lookupPost_indexTokens, if_pos rfl]

theorem step_cons (world : String → FetchOutcome) (domain url : String)
    (rest sn : List String) (ix : InvIndex) (pc fl : Nat) :
    step world domain ⟨url :: rest, sn, ix, pc, fl⟩
      = if url ∈ sn then ⟨rest, sn, ix, pc, fl⟩
        else processFetched world domain url ⟨rest, url :: sn, ix, pc, fl⟩ := rfl

theorem processPage_seen (domain url : String) (tr lr : Except Unit (List String))
    (st : CrawlState) : (processPage domain url tr lr st).seen = st.seen := by
  unfold processPage
  cases tr with
  | error e => rfl
  | ok tokens =>
    cases lr with
    | error e => rfl
    | ok hrefs => rfl

theorem processFetched_seen (world : String → FetchOutcome) (domain url : String)
    (st : CrawlState) : (processFetched world domain url st).seen = st.seen := by
  unfold processFetched
  split
  · rfl
  · cases world url with
    | fetchError => rfl
    | notHtml => rfl
    | page tr lr => exact processPage_seen domain url tr lr st

theorem step_seen_mono (world : String → FetchOutcome) (domain : String)
    (st : CrawlState) : st.seen ⊆ (step world domain st).seen := by
  obtain ⟨q, sn, ix, pc, fl⟩ := st
  cases q with
  | nil => exact fun a ha => ha
  | cons url rest =>
    rw [step_cons]
    by_cases h : url ∈ sn
    · rw [if_pos h]
      exact fun a ha => ha
    · rw [if_neg h, processFetched_seen]
      exact fun a ha => List.mem_cons_of_mem _ ha

theorem runFetches_unseen (world : String → FetchOutcome) (domain : String) :
    ∀ (n : Nat) (st : CrawlState) (u : String),
      u ∈ runFetches world domain n st → u ∉ st.seen := by
  intro n
  induction n with
  | zero =>
    intro st u hu
    simp [runFetches] at hu
  | succ m ih =>
    intro st u hu
    obtain ⟨q, sn, ix, pc, fl⟩ := st
    cases q with
    | nil => simp [runFetches] at hu
    | cons url rest =>
      rw [show runFetches world domain (m + 1) ⟨url :: rest, sn, ix, pc, fl⟩
            = (if url ∉ sn ∧ is_likely_html url = true then [url] else []) ++
                runFetches world domain m (step world domain ⟨url :: rest, sn, ix, pc, fl⟩)
          from rfl] at hu
      rcases List.mem_append.mp hu with h1 | h2
      · by_cases hc : url ∉ sn ∧ is_likely_html url = true
        · rw [if_pos hc] at h1
          have : u = url := by simpa using h1
          subst this
          exact hc.1
        · rw [if_neg hc] at h1
          simp at h1
      · intro hmem
        exact ih _ u h2 (step_seen_mono world domain _ hmem)

theorem runFetches_nodup (world : String → FetchOutcome) (domain : String) :
    ∀ (n : Nat) (st : CrawlState), (runFetches world domain n st).Nodup := by
  intro n
  induction n with
  | zero =>
    intro st
    simp [runFetches]
  | succ m ih =>
    intro st
    obtain ⟨q, sn, ix, pc, fl⟩ := st
    cases q with
    | nil => simp [runFetches]
    | cons url rest =>
      rw [show runFetches world domain (m + 1) ⟨url :: rest, sn, ix, pc, fl⟩
            = (if url ∉ sn ∧ is_likely_html url = true then [url] else []) ++
                runFetches world domain m (step world domain ⟨url :: rest, sn, ix, pc, fl⟩)
          from rfl]
      by_cases hc : url ∉ sn ∧ is_likely_html url = true
      · rw [if_pos hc]
        simp only [List.singleton_append, List.nodup_cons]
        refine ⟨?_, ih _⟩
        intro hmem
        apply runFetches_unseen world domain m _ url hmem
        rw [step_cons, if_neg hc.1, processFetched_seen]
        exact List.mem_cons_self _ _
      · rw [if_neg hc]
        simpa using ih _

/-- C4: across any number of crawl-loop iterations from the initial state, a
URL (already in absolute fragment-stripped form, since that is how URLs enter
the frontier) is fetched at most once — the list of URLs for which a fetch is
issued has no duplicates, however often a URL is discovered as a link
target. -/
theorem C4_fetch_once (world : String → FetchOutcome) (domain seed : String)
    (n : Nat) : (runFetches world domain n (initState seed)).Nodup :=
  runFetches_nodup world domain n (initState seed)

/-- C10: a dequeued unseen URL whose fetch fails, whose response is not HTML,
or that is skipped as non-HTML-like leaves the inverted index, the page
counter and the flush counter untouched and appends nothing to the frontier;
the only change besides the dequeue itself is that the seen set gains the
URL.  In particular a skipped URL can never affect the persisted index or
trigger a flush. -/
theorem C10_skip_atomic (world : String → FetchOutcome) (domain url : String)
    (rest seen : List String) (idx : InvIndex) (pc fl : Nat)
    (hseen : url ∉ seen)
    (hw : world url = FetchOutcome.fetchError ∨ world url = FetchOutcome.notHtml
          ∨ is_likely_html url = false) :
    step world domain ⟨url :: rest, seen, idx, pc, fl⟩
      = ⟨rest, url :: seen, idx, pc, fl⟩ := by
  rw [step_cons, if_neg hseen]
  unfold processFetched
  by_cases hlik : is_likely_html url = false
  · rw [if_pos hlik]
  · rw [if_neg hlik]
    rcases hw with hw | hw | hw
    · rw [hw]
    · rw [hw]
    · exact absurd hw hlik

/-- Witness for C10 with a world in which every fetch fails. -/
theorem C10_skip_atomic_witness :
    step worldFetchErr "d" ⟨["https://d/"], [], [], 0, 0⟩
      = ⟨[], ["https://d/"], [], 0, 0⟩ :=
  C10_skip_atomic worldFetchErr "d" "https://d/" [] [] [] 0 0
    (by decide) (Or.inl rfl)

/-- C2 counterexample: with a document whose text extraction succeeds (tokens
`["a"]`) but whose link extraction raises, the crawl-loop iteration leaves the
document's postings in the index — the index is not unchanged, so the claim
that an extraction error leaves the document unindexed with the index
unchanged is false on the code, where the index update precedes link
extraction inside the same try block. -/
theorem C2_counterexample :
    (step worldLinkErr "d" (initState "https://d/")).index
        = indexTokens [] "https://d/" ["a"]
    ∧ (step worldLinkErr "d" (initState "https://d/")).index
        ≠ (initState "https://d/").index := by
  decide

/-- C2 amended: a failure while extracting text leaves the index and frontier
unchanged (the document is neither indexed nor are its links enqueued); but a
failure while extracting links happens after the index update, so the
document's postings stay in the index while only the link enqueueing and the
page-counter increment are skipped.  In both cases the frontier gains nothing
and the crawl continues with the next URL. -/
theorem C2_amended (world : String → FetchOutcome) (domain url : String)
    (rest seen : List String) (idx : InvIndex) (pc fl : Nat)
    (tr lr : Except Unit (List String))
    (hseen : url ∉ seen) (hhtml : is_likely_html url = true)
    (hw : world url = FetchOutcome.page tr lr) :
    (tr = Except.error () →
      step world domain ⟨url :: rest, seen, idx, pc, fl⟩
        = ⟨rest, url :: seen, idx, pc, fl⟩)
    ∧ (∀ toks, tr = Except.ok toks → lr = Except.error () →
      step world domain ⟨url :: rest, seen, idx, pc, fl⟩
        = ⟨rest, url :: seen, indexTokens idx url toks, pc, fl⟩) := by
  have hstep : step world domain ⟨url :: rest, seen, idx, pc, fl⟩
      = processPage domain url tr lr ⟨rest, url :: seen, idx, pc, fl⟩ := by
    rw [step_cons, if_neg hseen]
    unfold processFetched
    rw [if_neg (by simp [hhtml]), hw]
  constructor
  · intro htr
    subst htr
    rw [hstep]
    rfl
  · intro toks htr hlr
    subst htr
    subst hlr
    rw [hstep]
    rfl

/-- Witness for C2 amended with the concrete world whose link extraction
raises. -/
theorem C2_amended_witness :
    step worldLinkErr "d" ⟨["https://d/"], [], [], 0, 0⟩
      = ⟨[], ["https://d/"], indexTokens [] "https://d/" ["a"], 0, 0⟩ :=
  (C2_amended worldLinkErr "d" "https://d/" [] [] [] 0 0
    (Except.ok ["a"]) (Except.error ()) (by decide) (by decide) rfl).2 ["a"] rfl rfl

/-- C3 counterexample: a page yielding the same eligible link twice leaves
that link in the queue twice — the enqueue path checks the seen set but does
not mark the URL seen, so a URL discovered twice before being visited is
present in the queue twice, refuting both the discovery-time dedup and the
at-most-once queue occupancy. -/
theorem C3_counterexample :
    (step worldDupLinks "d" (initState "https://d/")).to_crawl
        = ["https://d/x", "https://d/x"]
    ∧ "https://d/x" ∉ (step worldDupLinks "d" (initState "https://d/")).seen := by
  decide

/-- C3 amended: the enqueue path is a no-op for a URL already in the seen
set, but it appends without marking the URL seen, so a URL discovered several
times before being visited may occupy the queue several times; dedup happens
at dequeue time instead — popping an already-seen URL changes nothing but the
queue head, which keeps every URL from being processed twice. -/
theorem C3_amended (domain : String) (seen : List String) (base : String)
    (hrefs : List String) (u : String) (hu : u ∈ seen) :
    u ∉ enqueueLinks domain seen base hrefs
    ∧ ∀ (world : String → FetchOutcome) (rest : List String) (idx : InvIndex)
        (pc fl : Nat),
        step world domain ⟨u :: rest, seen, idx, pc, fl⟩ = ⟨rest, seen, idx, pc, fl⟩ := by
  constructor
  · induction hrefs with
    | nil => simp [enqueueLinks]
    | cons h rest ih =>
      simp only [enqueueLinks]
      intro hmem
      rcases List.mem_append.mp hmem with h1 | h2
      · by_cases hc : urlNetloc (urljoinModel base (stripFrag h)) = domain
            ∧ urljoinModel base (stripFrag h) ∉ seen
            ∧ is_likely_html (urljoinModel base (stripFrag h)) = true
        · rw [if_pos hc] at h1
          have : u = urljoinModel base (stripFrag h) := by simpa using h1
          subst this
          exact hc.2.1 hu
        · rw [if_neg hc] at h1
          simp at h1
      · exact ih h2
  · intro world rest idx pc fl
    rw [step_cons, if_pos hu]

/-- Witness for C3 amended: a link already in the seen set is not enqueued
again. -/
theorem C3_amended_witness :
    "https://d/" ∉ enqueueLinks "d" ["https://d/"] "https://d/" ["https://d/"] :=
  (C3_amended "d" ["https://d/"] "https://d/" ["https://d/"] "https://d/"
    (by decide)).1

/-- C5 counterexample: an anchor tag carrying two href attributes makes the
link extractor emit both values, not just the first — the attribute loop has
no early exit. -/
theorem C5_counterexample :
    linksOfStartTag "a" [("href", some "x"), ("href", some "y")] = ["x", "y"]
    ∧ linksOfStartTag "a" [("href", some "x"), ("href", some "y")] ≠ ["x"] := by
  decide

theorem linksOfAttrs_filterMap (l : List (String × Option String)) :
    linksOfAttrs l
      = l.filterMap (fun kv => if lowerStr kv.1 = "href" then hrefVal kv.2 else none) := by
  induction l with
  | nil => rfl
  | cons kv rest ih =>
    obtain ⟨k, v⟩ := kv
    by_cases hk : lowerStr k = "href"
    · cases hv : hrefVal v <;>
        simp [linksOfAttrs, List.filterMap_cons, hk, hv, ih]
    · simp [linksOfAttrs, List.filterMap_cons, hk, ih]

theorem empty_not_mem_linksOfAttrs (l : List (String × Option String)) :
    "" ∉ linksOfAttrs l := by
  induction l with
  | nil => simp [linksOfAttrs]
  | cons kv rest ih =>
    obtain ⟨k, v⟩ := kv
    simp only [linksOfAttrs]
    intro hmem
    rcases List.mem_append.mp hmem with h1 | h2
    · by_cases hk : lowerStr k = "href"
      · rw [if_pos hk] at h1
        cases v with
        | none => simp [hrefVal] at h1
        | some s =>
          by_cases hs : s = ""
          · simp [hrefVal, hs] at h1
          · simp [hrefVal, hs] at h1
            exact hs h1.symm
      · rw [if_neg hk] at h1
        simp at h1
    · exact ih h2

/-- C5 amended: for every anchor tag the link extractor emits one value per
nonempty href attribute, in attribute order — a tag with several href
attributes contributes every one of their nonempty values, not only the
first; attribute-name matching is case-insensitive (via lowercasing) and
empty or missing values are never emitted. -/
theorem C5_all_hrefs_emitted (tag : String) (attrs : List (String × Option String)) :
    linksOfStartTag tag attrs
      = (if lowerStr tag = "a"
         then attrs.filterMap (fun kv => if lowerStr kv.1 = "href" then hrefVal kv.2 else none)
         else [])
    ∧ "" ∉ linksOfStartTag tag attrs := by
  unfold linksOfStartTag
  by_cases ht : lowerStr tag = "a"
  · rw [if_pos ht, if_pos ht]
    exact ⟨linksOfAttrs_filterMap attrs, empty_not_mem_linksOfAttrs attrs⟩
  · rw [if_neg ht, if_neg ht]
    exact ⟨rfl, by simp⟩

/-- C7: on the sample document the extractor keeps exactly the body text
outside script/style/head, which tokenizes to `["hello", "world"]`; and in
general a data event extends the chunk buffer exactly when the parser is
inside `body` and not suppressed. -/
theorem C7_text_extraction :
    tokenize (extractText "<html><head><style>x</style></head><body>Hello <script>y()</script> World</body></html>")
      = ["hello", "world"]
    ∧ ∀ (te : TextExtractor) (s : String),
        (te.handle_data s).chunks
          = if te.in_body && !te.skip then te.chunks ++ [s] else te.chunks := by
  constructor
  · decide
  · intro te s
    unfold TextExtractor.handle_data
    split <;> rfl

/-- C8: the HTML-likelihood test accepts exactly the URLs whose path has an
empty, `.html` or `.htm` extension or ends in a slash, rejecting every other
extension; the four sample URLs behave as specified. -/
theorem C8_eligibility :
    (∀ url : String, is_likely_html url = true ↔
      ((splitext (urlPath url)).2 ∈ (["", ".html", ".htm"] : List String)
        ∨ strEndsWith (urlPath url) "/" = true))
    ∧ is_likely_html "https://ex.com/dir/" = true
    ∧ is_likely_html "https://ex.com/page.htm" = true
    ∧ is_likely_html "https://ex.com/page" = true
    ∧ is_likely_html "https://ex.com/file.pdf" = false := by
  refine ⟨?_, by decide, by decide, by decide, by decide⟩
  intro url
  unfold is_likely_html
  by_cases h1 : (splitext (urlPath url)).2 ∈ (["", ".html", ".htm"] : List String)
  · simp [h1]
  · by_cases h2 : strEndsWith (urlPath url) "/" = true <;> simp [h1, h2]

/-- Witness for C8 applied to a URL with an empty extension. -/
theorem C8_eligibility_witness : is_likely_html "https://ex.com/page" = true :=
  (C8_eligibility.1 "https://ex.com/page").mpr (Or.inl (by decide))

/-- C9: the prefix directory of a seed whose path does not end in a slash is
everything before the last slash plus a trailing slash (`/html/sp/` for the
sample seed); the prefix-scoped enqueue condition holds only when the link's
path starts with the prefix, and the two sample links are excluded and
included as specified. -/
theorem C9_prefix_scope :
    PREFIX_DIR_of "https://ex.com/html/sp/sp50.html" = "/html/sp/"
    ∧ (∀ (domain pd : String) (seen : List String) (u : String),
        enqCondP domain pd seen u = true → strStartsWith (urlPath u) pd = true)
    ∧ enqCondP "ex.com" "/html/sp/" [] "https://ex.com/html/other/x.html" = false
    ∧ enqCondP "ex.com" "/html/sp/" [] "https://ex.com/html/sp/x.html" = true := by
  refine ⟨by decide, ?_, by decide, by decide⟩
  intro domain pd seen u h
  unfold enqCondP at h
  simp only [Bool.and_eq_true] at h
  exact h.1.2

/-- Witness for C9 applied to the included sample link. -/
theorem C9_prefix_scope_witness :
    strStartsWith (urlPath "https://ex.com/html/sp/x.html") "/html/sp/" = true :=
  C9_prefix_scope.2.1 "ex.com" "/html/sp/" [] "https://ex.com/html/sp/x.html"
    (by decide)

end WebIndexer
